import Mathlib

/-!
Verification of the helper module `fritzconnection/lib/fritztools.py`.

The module contains two independent pieces:
* unit formatters (`byte_formatter`, `format_num`, `format_rate`), and
* the `ArgumentNamespace` adapter (a dict/attribute dual-access wrapper
  with MixedCase-to-snake_case key normalization).

Shallow embedding conventions used below:
* Python strings are modelled as lists of Unicode code points
  (`PyStr := List Nat`); `str.isupper`/`str.lower` on the single
  characters appearing here are modelled with their ASCII semantics,
  matching CPython on all ASCII inputs.
* Python dicts are modelled as association lists with the insertion
  semantics of CPython dicts: assignment to an existing key overwrites
  in place, assignment to a fresh key appends.
* `math.log10` on a positive integer is modelled exactly by the floor
  of the base-10 logarithm (`log10floor`); CPython returns exactly this
  value (after `int(... / 3)` truncation composed with the floor) on the
  integers relevant to the claims.
* floats are modelled by rationals; the only float operations performed
  by the code (division by a power of 1000, fixed one-decimal rendering)
  are exact on the inputs the claims mention.
* fallible operations (dict lookup raising KeyError, `math.log10` domain
  errors, list indexing raising IndexError) are modelled with
  `Option`/`Except`.
-/

namespace Fritz

/-- Python code points for a Lean string literal (used to write concrete
Python strings in statements). -/
def pyStr (s : String) : List Nat :=
  s.data.map Char.toNat

/-! ### Unit formatter: `byte_formatter`, `format_num`, `format_rate` -/

/-- The dimension table `dim = ['B', 'KB', 'MB', 'GB', 'TB']` from
`byte_formatter`. -/
def dim : List String := ["B", "KB", "MB", "GB", "TB"]

/-- Fuel-driven floor of the base-10 logarithm; `log10aux fuel v`
computes ⌊log10 v⌋ whenever `v ≤ fuel`. -/
def log10aux : Nat → Nat → Nat
  | 0, _ => 0
  | fuel + 1, v => if v < 10 then 0 else log10aux fuel (v / 10) + 1

/-- Floor of the base-10 logarithm of a positive natural number, the
exact value of CPython's `math.log10` composed with `int` truncation on
the inputs of interest. -/
def log10floor (v : Nat) : Nat := log10aux v v

/-- The `try: dim[log] except IndexError: dimension = 'PB'` block of
`byte_formatter`. -/
def dimLookup (log : Nat) : String :=
  match dim.get? log with
  | some d => d
  | none => "PB"

/-- Embedding of `byte_formatter(value)`: `value = abs(value)`; values
below 1 give `log = 0, num = 0`; otherwise
`log = min(int(math.log10(value) / 3), len(dim))` and
`num = value / 1000 ** log`; the dimension is `dim[log]` with the
IndexError fallback `'PB'`. -/
def byte_formatter (value : Int) : ℚ × String :=
  let v := value.natAbs
  if v < 1 then
    (0, dimLookup 0)
  else
    let log := min (log10floor v / 3) dim.length
    (((v : ℚ) / (1000 : ℚ) ^ log), dimLookup log)

/-- Rendering of a nonnegative rational with exactly one decimal digit,
modelling the format spec `3.1f` of `format_num` (the minimum width 3
never forces padding, because the shortest rendering `d.d` already has
three characters for the nonnegative numbers `byte_formatter` returns). -/
def formatFloat1 (q : ℚ) : String :=
  let n := (⌊q * 10 + 1 / 2⌋).toNat
  Nat.repr (n / 10) ++ "." ++ Nat.repr (n % 10)

/-- Embedding of `format_num(num, unit='bytes')`. -/
def format_num (num : Int) (unit : String := "bytes") : String :=
  let p := byte_formatter num
  let d := if unit ≠ "bytes" then p.2 ++ "it" else p.2
  formatFloat1 p.1 ++ " " ++ d

/-- Embedding of `format_rate(num, unit='bytes')`. -/
def format_rate (num : Int) (unit : String := "bytes") : String :=
  format_num num unit ++ "/s"

/-- Instrumented `math.log10`: raises `ValueError: math domain error`
on input 0 (the only nonnegative integer outside its domain). -/
def log10E (v : Nat) : Except String Nat :=
  if v = 0 then Except.error "math domain error" else Except.ok (log10floor v)

/-- The magnitude threshold of CPython's int/int true division: the
exact quotient is rounded to the nearest double, and every quotient of
magnitude at least `2 ^ 1024 - 2 ^ 970` rounds past the largest finite
double `(2 - 2 ^ (-52)) * 2 ^ 1023`, raising `OverflowError`. -/
def overflowBound : Nat := 2 ^ 1024 - 2 ^ 970

/-- Instrumented `a / b` on nonnegative integers as CPython performs it
in `byte_formatter` (`value / 1000 ** log`): the result is a double,
and the division raises `OverflowError` when the exact quotient reaches
`overflowBound`; the test `a / b ≥ overflowBound` is written integrally
as `b * overflowBound ≤ a` (`b` is a positive power of 1000 here). -/
def truedivE (a b : Nat) : Except String ℚ :=
  if b * overflowBound ≤ a then Except.error "OverflowError"
  else Except.ok ((a : ℚ) / (b : ℚ))

/-- Instrumented embedding of `byte_formatter` in which every fallible
primitive (the `math.log10` call, the float division `value / 1000 **
log`, and the `dim[log]` indexing with its `except IndexError` handler)
is tracked in the `Except` monad; an uncaught Python exception would
surface as `Except.error`. -/
def byte_formatterE (value : Int) : Except String (ℚ × String) :=
  let v := value.natAbs
  if v < 1 then
    Except.ok (0, dimLookup 0)
  else
    match log10E v with
    | Except.error e => Except.error e
    | Except.ok l =>
      let log := min (l / 3) dim.length
      match truedivE v (1000 ^ log) with
      | Except.error e => Except.error e
      | Except.ok num => Except.ok (num, dimLookup log)

/-- Instrumented embedding of `format_num`. -/
def format_numE (num : Int) (unit : String) : Except String String :=
  match byte_formatterE num with
  | Except.error e => Except.error e
  | Except.ok p =>
    let d := if unit ≠ "bytes" then p.2 ++ "it" else p.2
    Except.ok (formatFloat1 p.1 ++ " " ++ d)

/-- Instrumented embedding of `format_rate`. -/
def format_rateE (num : Int) (unit : String) : Except String String :=
  match format_numE num unit with
  | Except.error e => Except.error e
  | Except.ok s => Except.ok (s ++ "/s")

/-! ### Name normalization: `ArgumentNamespace.rewrite_argument` -/

/-- Model of `str.isupper` for a single code point (ASCII semantics,
matching CPython on all ASCII characters). -/
def pyIsUpper (c : Nat) : Bool := decide (65 ≤ c ∧ c ≤ 90)

/-- Model of `str.lower` for a single code point (ASCII semantics). -/
def pyToLower (c : Nat) : Nat := if pyIsUpper c then c + 32 else c

/-- The character loop of `rewrite_argument` for positions `i > 0`:
`prev` is the previous character `name[i-1]`; an underscore (code 95) is
emitted before `char.lower()` when `char.isupper() and not
name[i-1].isupper()`. -/
def snakeFrom (prev : Nat) : List Nat → List Nat
  | [] => []
  | c :: rest =>
    (if pyIsUpper c && !pyIsUpper prev then [95, pyToLower c] else [pyToLower c])
      ++ snakeFrom c rest

/-- The full character loop of `rewrite_argument` (position `i = 0`
never receives an underscore since the loop condition requires `i > 0`). -/
def snakeCase : List Nat → List Nat
  | [] => []
  | c :: rest => pyToLower c :: snakeFrom c rest

/-- Model of `result.startswith("new_")` followed by `result[4:]`:
strips a leading `new_` (code points 110, 101, 119, 95) when present,
otherwise returns the input unchanged. -/
def stripNew (cs : List Nat) : List Nat :=
  if cs.take 4 = [110, 101, 119, 95] then cs.drop 4 else cs

/-- Embedding of `ArgumentNamespace.rewrite_argument(name, suppress_new)`:
the character scan, then (when `suppress_new`) removal of a leading
`new_`. -/
def rewrite_argument (name : List Nat) (suppress_new : Bool := true) : List Nat :=
  let result := snakeCase name
  if suppress_new then stripNew result else result

/-! ### The `ArgumentNamespace` adapter

The adapter's state is its `__dict__`: an ordered mapping from attribute
names to values, modelled as an association list with distinct keys kept
in insertion order, exactly as CPython stores instance dictionaries. -/

/-- A Python string (list of code points). -/
abbrev PyStr := List Nat

/-- The `__dict__` of an `ArgumentNamespace` (or any Python dict with
string keys): entries in insertion order. -/
abbrev Storage (V : Type) := List (PyStr × V)

namespace ArgumentNamespace

/-- Model of `setattr(self, key, value)` (also of assignment into a
Python dict): overwrite in place when the key exists, append otherwise. -/
def setattr {V : Type} : Storage V → PyStr → V → Storage V
  | [], k, v => [(k, v)]
  | p :: rest, k, v => if p.1 = k then (k, v) :: rest else p :: setattr rest k v

/-- Model of `getattr(self, key)` (also of `d[key]` on a Python dict):
`none` models the raised `AttributeError` (resp. `KeyError`). -/
def getattr {V : Type} : Storage V → PyStr → Option V
  | [], _ => none
  | p :: rest, k => if p.1 = k then some p.2 else getattr rest k

/-- Embedding of `__getitem__`, which returns `getattr(self, key)`;
`none` models the raised `AttributeError`. -/
def getitem {V : Type} (ns : Storage V) (k : PyStr) : Option V := getattr ns k

/-- Embedding of `__setitem__`, which calls `setattr(self, key, value)`. -/
def setitem {V : Type} (ns : Storage V) (k : PyStr) (v : V) : Storage V := setattr ns k v

/-- Embedding of `__contains__`: `key in self.__dict__`. -/
def hasKey {V : Type} : Storage V → PyStr → Bool
  | [], _ => false
  | p :: rest, k => decide (p.1 = k) || hasKey rest k

/-- Embedding of `__len__`: `len(self.__dict__)`. -/
def nsLen {V : Type} (ns : Storage V) : Nat := ns.length

/-- Embedding of `get(key, default)`: `try: return self[key] except
AttributeError: return default`. -/
def get {V : Type} (ns : Storage V) (k : PyStr) (default : V) : V :=
  match getitem ns k with
  | some v => v
  | none => default

/-- The dict comprehension of `__init__`:
`kwargs = {name: source[source_key] for name, source_key in mapping.items()}`
built left to right; a `source_key` absent from `source` raises
`KeyError(source_key)`, modelled as `Except.error`. -/
def buildKwargs {V : Type} (source : Storage V) :
    List (PyStr × PyStr) → Storage V → Except PyStr (Storage V)
  | [], acc => Except.ok acc
  | p :: rest, acc =>
    match getattr source p.2 with
    | some v => buildKwargs source rest (setattr acc p.1 v)
    | none => Except.error p.2

/-- The mapping auto-generation loop of `__init__` (when `mapping is
None`): `mapping[rewrite_argument(key, suppress_new)] = key` for each
`key` of `source`, in iteration order. -/
def autoMapping {V : Type} (source : Storage V) (suppress_new : Bool) :
    List (PyStr × PyStr) :=
  source.foldl (fun m p => setattr m (rewrite_argument p.1 suppress_new) p.1) []

/-- Embedding of `ArgumentNamespace.__init__(source, mapping,
suppress_new)`: auto-generate the mapping when absent, then build the
namespace `__dict__` from the dict comprehension. -/
def init {V : Type} (source : Storage V) (mapping : Option (List (PyStr × PyStr)))
    (suppress_new : Bool) : Except PyStr (Storage V) :=
  buildKwargs source
    (match mapping with
     | none => autoMapping source suppress_new
     | some m => m) []

/-- The dynamic type of the single positional argument passed to
`update`: a plain dict, another `ArgumentNamespace` (represented by its
`__dict__`), or a value of any other Python type, carrying
`type(other).__name__`. -/
inductive UpdateArg (V : Type) where
  | dict (d : Storage V)
  | namespaceArg (n : Storage V)
  | other (typeName : PyStr)

/-- The message of the `TypeError` raised by `update`:
`f"Expected dict or ArgumentNamespace, got {type(other).__name__}"`. -/
def typeErrorMsg (typeName : PyStr) : PyStr :=
  pyStr "Expected dict or ArgumentNamespace, got " ++ typeName

/-- Embedding of `update(other)` with one positional argument: iterate
the entries of a dict or of another namespace's `__dict__` through
`setattr`; any other argument type raises `TypeError` (modelled as
`Except.error`, the storage being returned unchanged only on success). -/
def update {V : Type} (ns : Storage V) (arg : UpdateArg V) : Except PyStr (Storage V) :=
  match arg with
  | UpdateArg.dict d => Except.ok (d.foldl (fun acc p => setattr acc p.1 p.2) ns)
  | UpdateArg.namespaceArg n => Except.ok (n.foldl (fun acc p => setattr acc p.1 p.2) ns)
  | UpdateArg.other t => Except.error (typeErrorMsg t)

end ArgumentNamespace

/-- Predecessor-indexed reformulation of the character scan, following
the amended specification wording: the first character is lowercased
with no underscore, and every later character (paired by `zip` with its
predecessor) receives an underscore exactly when it is uppercase and
its predecessor is not. Proved equal to `snakeCase` below. -/
def specSnake (cs : List Nat) : List Nat :=
  match cs with
  | [] => []
  | c :: rest =>
    pyToLower c ::
      (List.map
        (fun p : Nat × Nat =>
          if pyIsUpper p.2 && !pyIsUpper p.1 then [95, pyToLower p.2] else [pyToLower p.2])
        (List.zip (c :: rest) rest)).flatten

/-! ### Lemmas about the character scan -/

theorem pyToLower_not_upper (c : Nat) : pyIsUpper (pyToLower c) = false := by
  by_cases h : 65 ≤ c ∧ c ≤ 90
  · have hl : pyToLower c = c + 32 := by simp [pyToLower, pyIsUpper, h]
    rw [hl]
    simp only [pyIsUpper, decide_eq_false_iff_not]
    omega
  · have hl : pyToLower c = c := by simp [pyToLower, pyIsUpper, h]
    rw [hl]
    simp only [pyIsUpper, decide_eq_false_iff_not]
    exact h

theorem pyToLower_eq_self {c : Nat} (h : pyIsUpper c = false) : pyToLower c = c := by
  simp [pyToLower, h]

theorem snakeFrom_no_upper (cs : List Nat) :
    ∀ (prev c : Nat), c ∈ snakeFrom prev cs → pyIsUpper c = false := by
  induction cs with
  | nil => intro prev c hc; simp [snakeFrom] at hc
  | cons d rest ih =>
    intro prev c hc
    simp only [snakeFrom, List.mem_append] at hc
    rcases hc with hc | hc
    · split at hc
      · simp at hc
        rcases hc with rfl | rfl
        · decide
        · exact pyToLower_not_upper d
      · simp at hc
        subst hc
        exact pyToLower_not_upper d
    · exact ih d c hc

theorem snakeCase_no_upper (cs : List Nat) :
    ∀ c ∈ snakeCase cs, pyIsUpper c = false := by
  cases cs with
  | nil => simp [snakeCase]
  | cons d rest =>
    intro c hc
    simp only [snakeCase, List.mem_cons] at hc
    rcases hc with rfl | hc
    · exact pyToLower_not_upper d
    · exact snakeFrom_no_upper rest d c hc

theorem snakeFrom_fixed (cs : List Nat) :
    ∀ prev : Nat, (∀ c ∈ cs, pyIsUpper c = false) → snakeFrom prev cs = cs := by
  induction cs with
  | nil => intro prev _; rfl
  | cons d rest ih =>
    intro prev h
    have hd : pyIsUpper d = false := h d (by simp)
    simp [snakeFrom, hd, pyToLower_eq_self hd,
      ih d (fun c hc => h c (List.mem_cons_of_mem _ hc))]

theorem snakeCase_fixed (cs : List Nat)
    (h : ∀ c ∈ cs, pyIsUpper c = false) : snakeCase cs = cs := by
  cases cs with
  | nil => rfl
  | cons d rest =>
    have hd : pyIsUpper d = false := h d (by simp)
    simp [snakeCase, pyToLower_eq_self hd,
      snakeFrom_fixed rest d (fun c hc => h c (List.mem_cons_of_mem _ hc))]

theorem stripNew_subset (cs : List Nat) : ∀ c ∈ stripNew cs, c ∈ cs := by
  intro c hc
  unfold stripNew at hc
  split at hc
  · exact List.mem_of_mem_drop hc
  · exact hc

theorem stripNew_ne_shrinks (cs : List Nat) (h : stripNew cs ≠ cs) :
    (stripNew cs).length < cs.length := by
  unfold stripNew at h ⊢
  split at h
  · rename_i h4
    rw [if_pos h4]
    have hsplit : cs.take 4 ++ cs.drop 4 = cs := List.take_append_drop 4 cs
    have hlen : (cs.take 4).length + (cs.drop 4).length = cs.length := by
      rw [← List.length_append, hsplit]
    rw [h4] at hlen
    simp at hlen
    simp [List.length_drop]
    omega
  · exact absurd rfl h

theorem snakeFrom_eq_zip (cs : List Nat) : ∀ prev : Nat,
    snakeFrom prev cs =
      (List.map
        (fun p : Nat × Nat =>
          if pyIsUpper p.2 && !pyIsUpper p.1 then [95, pyToLower p.2] else [pyToLower p.2])
        (List.zip (prev :: cs) cs)).flatten := by
  induction cs with
  | nil => intro prev; simp [snakeFrom]
  | cons c rest ih =>
    intro prev
    simp [snakeFrom, List.zip_cons_cons, ih c]

theorem snakeCase_eq_specSnake (cs : List Nat) : snakeCase cs = specSnake cs := by
  cases cs with
  | nil => rfl
  | cons c rest => simp [snakeCase, specSnake, snakeFrom_eq_zip rest c]

/-! ### Lemmas about the adapter storage -/

namespace ArgumentNamespace

theorem getattr_setattr {V : Type} (ns : Storage V) (k k2 : PyStr) (v : V) :
    getattr (setattr ns k v) k2 = if k2 = k then some v else getattr ns k2 := by
  induction ns with
  | nil =>
    by_cases h : k2 = k
    · subst h; simp [setattr, getattr]
    · simp [setattr, getattr, h, Ne.symm h]
  | cons p rest ih =>
    by_cases hpk : p.1 = k
    · by_cases h : k2 = k
      · subst h; simp [setattr, getattr, hpk]
      · have hpk2 : ¬(p.1 = k2) := by rw [hpk]; exact Ne.symm h
        simp [setattr, getattr, hpk, h, Ne.symm h, hpk2]
    · by_cases h : k2 = p.1
      · have hne : ¬(k2 = k) := by rw [h]; exact hpk
        simp [setattr, getattr, hpk, hne, h]
      · simp [setattr, getattr, hpk, Ne.symm h, ih]

theorem hasKey_setattr {V : Type} (ns : Storage V) (k k2 : PyStr) (v : V) :
    hasKey (setattr ns k v) k2 = (decide (k2 = k) || hasKey ns k2) := by
  induction ns with
  | nil =>
    by_cases h : k2 = k
    · subst h; simp [setattr, hasKey]
    · simp [setattr, hasKey, h, Ne.symm h]
  | cons p rest ih =>
    by_cases hpk : p.1 = k
    · subst hpk
      by_cases h : k2 = p.1
      · subst h; simp [setattr, hasKey]
      · simp [setattr, hasKey, h, Ne.symm h]
    · simp only [setattr, if_neg hpk, hasKey, ih]
      cases h : decide (p.1 = k2) <;> cases h2 : decide (k2 = k) <;> simp_all

theorem hasKey_iff_getattr {V : Type} (ns : Storage V) (k : PyStr) :
    hasKey ns k = true ↔ ∃ v, getattr ns k = some v := by
  induction ns with
  | nil => simp [hasKey, getattr]
  | cons p rest ih =>
    by_cases h : p.1 = k <;> simp [hasKey, getattr, h, ih]

theorem hasKey_iff_mem_map {V : Type} (ns : Storage V) (k : PyStr) :
    hasKey ns k = true ↔ k ∈ ns.map Prod.fst := by
  induction ns with
  | nil => simp [hasKey]
  | cons p rest ih =>
    by_cases h : p.1 = k
    · simp [hasKey, h]
    · simp [hasKey, h, Ne.symm h, ih]

theorem getattr_none_of_not_hasKey {V : Type} (ns : Storage V) (k : PyStr)
    (h : hasKey ns k = false) : getattr ns k = none := by
  cases hg : getattr ns k with
  | none => rfl
  | some v => rw [(hasKey_iff_getattr ns k).mpr ⟨v, hg⟩] at h; cases h

theorem length_setattr_fresh {V : Type} (ns : Storage V) (k : PyStr) (v : V)
    (h : hasKey ns k = false) : (setattr ns k v).length = ns.length + 1 := by
  induction ns with
  | nil => rfl
  | cons p rest ih =>
    simp only [hasKey, Bool.or_eq_false_iff, decide_eq_false_iff_not] at h
    simp [setattr, h.1, ih h.2]

theorem buildKwargs_cons {V : Type} (source : Storage V) (p : PyStr × PyStr)
    (rest : List (PyStr × PyStr)) (acc : Storage V) :
    buildKwargs source (p :: rest) acc =
      match getattr source p.2 with
      | some v => buildKwargs source rest (setattr acc p.1 v)
      | none => Except.error p.2 := rfl

theorem buildKwargs_ok {V : Type} (source : Storage V) :
    ∀ (mapping : List (PyStr × PyStr)) (acc : Storage V),
      (∀ p ∈ mapping, (getattr source p.2).isSome = true) →
      ∃ ns, buildKwargs source mapping acc = Except.ok ns ∧
        ((mapping.map Prod.fst).Nodup →
          (∀ p ∈ mapping, hasKey acc p.1 = false) →
          ns.length = acc.length + mapping.length) := by
  intro mapping
  induction mapping with
  | nil => intro acc _; exact ⟨acc, rfl, fun _ _ => by simp⟩
  | cons p rest ih =>
    intro acc hall
    obtain ⟨v, hv⟩ : ∃ v, getattr source p.2 = some v := by
      have hp := hall p (by simp)
      cases hg : getattr source p.2 with
      | none => rw [hg] at hp; cases hp
      | some v => exact ⟨v, rfl⟩
    obtain ⟨ns, hns, hlen⟩ :=
      ih (setattr acc p.1 v) (fun q hq => hall q (List.mem_cons_of_mem _ hq))
    refine ⟨ns, by rw [buildKwargs_cons, hv]; exact hns, ?_⟩
    intro hnodup hfresh
    have hp1 : hasKey acc p.1 = false := hfresh p (by simp)
    rw [List.map_cons, List.nodup_cons] at hnodup
    have hfresh' : ∀ q ∈ rest, hasKey (setattr acc p.1 v) q.1 = false := by
      intro q hq
      rw [hasKey_setattr]
      have hne : ¬(q.1 = p.1) := fun he =>
        hnodup.1 (he ▸ List.mem_map_of_mem Prod.fst hq)
      simp [hne, hfresh q (List.mem_cons_of_mem _ hq)]
    rw [hlen hnodup.2 hfresh', length_setattr_fresh acc p.1 v hp1]
    simp
    omega

theorem buildKwargs_err {V : Type} (source : Storage V) :
    ∀ (mapping : List (PyStr × PyStr)) (acc : Storage V),
      (∃ p ∈ mapping, getattr source p.2 = none) →
      ∀ ns, buildKwargs source mapping acc ≠ Except.ok ns := by
  intro mapping
  induction mapping with
  | nil =>
    intro acc h
    rcases h with ⟨p, hp, _⟩
    exact absurd hp (List.not_mem_nil p)
  | cons p rest ih =>
    intro acc h ns
    cases hg : getattr source p.2 with
    | none => simp [buildKwargs, hg]
    | some v =>
      rcases h with ⟨q, hq, hqnone⟩
      rcases List.mem_cons.mp hq with rfl | hq'
      · rw [hg] at hqnone; cases hqnone
      · simp only [buildKwargs, hg]
        exact ih (setattr acc p.1 v) ⟨q, hq', hqnone⟩ ns

theorem getattr_foldl_setattr {V : Type} :
    ∀ (l ns : Storage V) (k : PyStr), (l.map Prod.fst).Nodup →
      getattr (l.foldl (fun acc p => setattr acc p.1 p.2) ns) k =
        (match getattr l k with
         | some v => some v
         | none => getattr ns k) := by
  intro l
  induction l with
  | nil => intro ns k _; simp [getattr]
  | cons p rest ih =>
    intro ns k hnodup
    rw [List.map_cons, List.nodup_cons] at hnodup
    simp only [List.foldl_cons]
    rw [ih (setattr ns p.1 p.2) k hnodup.2]
    by_cases h : k = p.1
    · have hrest : getattr rest k = none := by
        apply getattr_none_of_not_hasKey
        cases hk : hasKey rest k with
        | false => rfl
        | true =>
          rw [h] at hk
          exact absurd ((hasKey_iff_mem_map rest p.1).mp hk) hnodup.1
      have hset : getattr (setattr ns p.1 p.2) k = some p.2 := by
        rw [getattr_setattr]; simp [h]
      have hhead : getattr (p :: rest) k = some p.2 := by simp [getattr, h.symm]
      rw [hrest, hset, hhead]
    · have hgs : getattr (setattr ns p.1 p.2) k = getattr ns k := by
        rw [getattr_setattr]; simp [h]
      cases hr : getattr rest k <;> simp [getattr, Ne.symm h, hr, hgs]

end ArgumentNamespace

/-! ### Lemmas about the unit formatters -/

theorem log10aux_eq (fuel : Nat) : ∀ v : Nat, v ≤ fuel → log10aux fuel v = Nat.log 10 v := by
  induction fuel with
  | zero =>
    intro v hv
    have hz : v = 0 := Nat.le_zero.mp hv
    subst hz
    simp [log10aux]
  | succ n ih =>
    intro v hv
    by_cases h : v < 10
    · simp [log10aux, h, Nat.log_of_lt h]
    · have h10 : 10 ≤ v := Nat.le_of_not_lt h
      have hdivlt : v / 10 < v := Nat.div_lt_self (by omega) (by omega)
      have hdiv : v / 10 ≤ n := by omega
      have hpos : 0 < Nat.log 10 v := Nat.log_pos (by omega) h10
      have hrec := Nat.log_div_base 10 v
      simp only [log10aux, if_neg h]
      rw [ih (v / 10) hdiv, hrec]
      omega

theorem log10floor_eq (v : Nat) : log10floor v = Nat.log 10 v :=
  log10aux_eq v v le_rfl

theorem truedivE_ok (a b : Nat) (hb : 0 < b) (ha : a < overflowBound) :
    truedivE a b = Except.ok ((a : ℚ) / (b : ℚ)) := by
  have h1 : overflowBound ≤ b * overflowBound := Nat.le_mul_of_pos_left _ hb
  rw [truedivE, if_neg (by omega)]

theorem byte_formatterE_agrees (v : Int) (h : v.natAbs < overflowBound) :
    byte_formatterE v = Except.ok (byte_formatter v) := by
  by_cases h1 : v.natAbs < 1
  · simp [byte_formatterE, byte_formatter, h1]
  · have h0 : v.natAbs ≠ 0 := by omega
    have htd := truedivE_ok v.natAbs
      (1000 ^ (min (log10floor v.natAbs / 3) dim.length)) (by positivity) h
    simp [byte_formatterE, byte_formatter, h1, log10E, h0, htd]

theorem format_numE_agrees (v : Int) (u : String) (h : v.natAbs < overflowBound) :
    format_numE v u = Except.ok (format_num v u) := by
  simp [format_numE, format_num, byte_formatterE_agrees v h]

theorem format_rateE_agrees (v : Int) (u : String) (h : v.natAbs < overflowBound) :
    format_rateE v u = Except.ok (format_rate v u) := by
  simp [format_rateE, format_rate, format_numE_agrees v u h]

theorem byte_formatter_PB (v : Int) (h : 1000 ^ 5 ≤ v.natAbs) :
    (byte_formatter v).2 = "PB" := by
  have e : (1000 : Nat) ^ 5 = 10 ^ 15 := by norm_num
  rw [e] at h
  have hv1 : ¬ v.natAbs < 1 := by
    have hp : (0 : Nat) < 10 ^ 15 := by positivity
    omega
  have hlog : 15 ≤ Nat.log 10 v.natAbs := by
    have hm := Nat.log_mono_right (b := 10) h
    rwa [Nat.log_pow (by norm_num)] at hm
  have hfloor : 15 ≤ log10floor v.natAbs := by rw [log10floor_eq]; exact hlog
  have hmin : min (log10floor v.natAbs / 3) dim.length = 5 := by
    have h5 : 5 ≤ log10floor v.natAbs / 3 := by omega
    have hd : dim.length = 5 := rfl
    rw [hd]
    exact min_eq_right h5
  have hval : byte_formatter v =
      (((v.natAbs : ℚ) / (1000 : ℚ) ^ (min (log10floor v.natAbs / 3) dim.length)),
        dimLookup (min (log10floor v.natAbs / 3) dim.length)) := by
    simp [byte_formatter, hv1]
  rw [hval, hmin]
  simp [dimLookup, dim]

theorem byte_formatter_1000 : byte_formatter 1000 = (1, "KB") := by
  have h : log10floor 1000 = 3 := by decide
  simp [byte_formatter, h, dimLookup, dim]

theorem formatFloat1_one : formatFloat1 1 = "1.0" := by
  simp only [formatFloat1]
  norm_num
  decide

/-! ### Claims -/

/-- C1 (counterexample): the claim predicts that a mapping pair whose
`original_key` (here `"b"`) is absent from the source is silently
skipped and construction succeeds with `len(adapter) = 1`; on the code,
`__init__`'s dict comprehension evaluates `source["b"]` and raises
`KeyError("b")` instead. -/
theorem c1_counterexample :
    ArgumentNamespace.init [(pyStr "a", "1")]
        (some [(pyStr "x", pyStr "a"), (pyStr "y", pyStr "b")]) true
      = Except.error (pyStr "b") := rfl

/-- C1 (amended): constructing an `ArgumentNamespace` stores one entry
per `(normalized_key, original_key)` pair of the explicit mapping; when
every `original_key` is present in `source` (and the mapping's keys are
distinct, as Python dict keys are), construction succeeds and
`len(adapter)` equals the number of pairs; a pair whose `original_key`
is absent makes construction raise `KeyError` rather than being
silently skipped. -/
theorem c1_init_length_or_key_error {V : Type} (source : Storage V)
    (mapping : List (PyStr × PyStr)) (sn : Bool) :
    ((∀ p ∈ mapping, (ArgumentNamespace.getattr source p.2).isSome = true) →
      (mapping.map Prod.fst).Nodup →
      ∃ ns, ArgumentNamespace.init source (some mapping) sn = Except.ok ns ∧
        ArgumentNamespace.nsLen ns = mapping.length) ∧
    ((∃ p ∈ mapping, ArgumentNamespace.getattr source p.2 = none) →
      ∀ ns, ArgumentNamespace.init source (some mapping) sn ≠ Except.ok ns) := by
  constructor
  · intro hall hnodup
    obtain ⟨ns, hok, hlen⟩ := ArgumentNamespace.buildKwargs_ok source mapping [] hall
    exact ⟨ns, hok, by
      simpa [ArgumentNamespace.nsLen] using hlen hnodup (fun q _ => rfl)⟩
  · intro hmiss ns
    exact ArgumentNamespace.buildKwargs_err source mapping [] hmiss ns

/-- C1 (witness): a fully present two-key source with a one-pair
mapping builds successfully with length 1. -/
theorem c1_witness :
    ∃ ns, ArgumentNamespace.init [(pyStr "a", "1"), (pyStr "b", "2")]
        (some [(pyStr "x", pyStr "a")]) true = Except.ok ns ∧
      ArgumentNamespace.nsLen ns = 1 :=
  (c1_init_length_or_key_error [(pyStr "a", "1"), (pyStr "b", "2")]
      [(pyStr "x", pyStr "a")] true).1 (by decide) (by decide)

/-- C2 (counterexample): `rewrite_argument` with `suppress_new = True`
is not idempotent: `"NewNewFoo"` normalizes to `"new_foo"`, and a second
application strips the remaining `new_` and yields `"foo"`. -/
theorem c2_counterexample :
    rewrite_argument (pyStr "NewNewFoo") true = pyStr "new_foo" ∧
    rewrite_argument (rewrite_argument (pyStr "NewNewFoo") true) true = pyStr "foo" ∧
    rewrite_argument (rewrite_argument (pyStr "NewNewFoo") true) true
      ≠ rewrite_argument (pyStr "NewNewFoo") true := by
  decide

/-- C2 (amended): `rewrite_argument` is idempotent for
`suppress_new = False`; for `suppress_new = True` it is idempotent
exactly on the inputs whose once-normalized form is unchanged by the
leading-`new_` strip (i.e. does not itself start with `"new_"`). -/
theorem c2_rewrite_idempotence (x : List Nat) :
    (rewrite_argument (rewrite_argument x false) false = rewrite_argument x false) ∧
    (stripNew (rewrite_argument x true) = rewrite_argument x true →
      rewrite_argument (rewrite_argument x true) true = rewrite_argument x true) ∧
    (stripNew (rewrite_argument x true) ≠ rewrite_argument x true →
      rewrite_argument (rewrite_argument x true) true ≠ rewrite_argument x true) := by
  have hf : ∀ y : List Nat, rewrite_argument y false = snakeCase y := fun y => by
    simp [rewrite_argument]
  have ht : ∀ y : List Nat, rewrite_argument y true = stripNew (snakeCase y) := fun y => by
    simp [rewrite_argument]
  have hr : ∀ c ∈ stripNew (snakeCase x), pyIsUpper c = false :=
    fun c hc => snakeCase_no_upper x c (stripNew_subset _ c hc)
  refine ⟨?_, ?_, ?_⟩
  · rw [hf x, hf (snakeCase x)]
    exact snakeCase_fixed _ (snakeCase_no_upper x)
  · intro hfix
    rw [ht x] at hfix
    rw [ht x, ht (stripNew (snakeCase x)), snakeCase_fixed _ hr]
    exact hfix
  · intro hne
    rw [ht x] at hne
    rw [ht x, ht (stripNew (snakeCase x)), snakeCase_fixed _ hr]
    exact hne

/-- C2 (witness): idempotence under `suppress_new = True` at
`"MixedCase"`, whose normal form `"mixed_case"` does not start with
`"new_"`. -/
theorem c2_witness :
    rewrite_argument (rewrite_argument (pyStr "MixedCase") true) true
      = rewrite_argument (pyStr "MixedCase") true :=
  (c2_rewrite_idempotence (pyStr "MixedCase")).2.1 (by decide)

/-- C3 (counterexample): the claim predicts that a run of capitals
produces one underscore before the final word, so `"ABCWord"` would
normalize to `"abc_word"`; the character scan of the code inserts an
underscore only before an uppercase letter whose predecessor is not
uppercase, producing `"abcword"`. -/
theorem c3_counterexample :
    rewrite_argument (pyStr "ABCWord") false = pyStr "abcword" ∧
    rewrite_argument (pyStr "ABCWord") true = pyStr "abcword" ∧
    pyStr "abcword" ≠ pyStr "abc_word" := by
  decide

/-- C3 (amended): `rewrite_argument` lowercases every character and
inserts an underscore before exactly those characters (beyond the
first) that are uppercase with a non-uppercase predecessor — so a run
of capitals yields no boundary before its final word; an input with no
uppercase letters passes through the scan unchanged; when
`suppress_new` is true a leading `"new_"` is then removed. -/
theorem c3_rewrite_algorithm (cs : List Nat) (sn : Bool) :
    rewrite_argument cs sn
      = (if sn then stripNew (specSnake cs) else specSnake cs) ∧
    ((∀ c ∈ cs, pyIsUpper c = false) → specSnake cs = cs) := by
  constructor
  · cases sn <;> simp [rewrite_argument, snakeCase_eq_specSnake]
  · intro h
    rw [← snakeCase_eq_specSnake]
    exact snakeCase_fixed cs h

/-- C3 (witness): the already-normalized input `"up_time"` is a fixed
point of the scan. -/
theorem c3_witness : specSnake (pyStr "up_time") = pyStr "up_time" :=
  (c3_rewrite_algorithm (pyStr "up_time") false).2 (by decide)

/-- C4: building from `{"NewModelName": "X", "NewSerialNumber": "Y"}`
with no explicit mapping yields exactly `model_name`/`serial_number`
under `suppress_new = True`, and `new_model_name`/`new_serial_number`
under `suppress_new = False`, with the matching values. -/
theorem c4_auto_mapping_roundtrip :
    ArgumentNamespace.init
        [(pyStr "NewModelName", "X"), (pyStr "NewSerialNumber", "Y")] none true
      = Except.ok [(pyStr "model_name", "X"), (pyStr "serial_number", "Y")] ∧
    ArgumentNamespace.init
        [(pyStr "NewModelName", "X"), (pyStr "NewSerialNumber", "Y")] none false
      = Except.ok [(pyStr "new_model_name", "X"), (pyStr "new_serial_number", "Y")] :=
  ⟨rfl, rfl⟩

/-- C5: for a key absent from the storage, item access and attribute
access both raise (`none` models the raised `AttributeError`) while
`get` returns the caller-supplied default; for a stored key, `get`
returns the stored value. -/
theorem c5_missing_key_access {V : Type} (ns : Storage V) (k : PyStr) (d : V) :
    (ArgumentNamespace.hasKey ns k = false →
      ArgumentNamespace.getitem ns k = none ∧
      ArgumentNamespace.getattr ns k = none ∧
      ArgumentNamespace.get ns k d = d) ∧
    (∀ v, ArgumentNamespace.getattr ns k = some v →
      ArgumentNamespace.get ns k d = v) := by
  constructor
  · intro h
    have hnone := ArgumentNamespace.getattr_none_of_not_hasKey ns k h
    exact ⟨hnone, hnone, by
      simp [ArgumentNamespace.get, ArgumentNamespace.getitem, hnone]⟩
  · intro v hv
    simp [ArgumentNamespace.get, ArgumentNamespace.getitem, hv]

/-- C5 (witness): on the storage `{"a": 1}`, looking up `"missing"`
raises under both access styles while `get` returns the default 7, and
`get` on the stored key returns 1. -/
theorem c5_witness :
    (ArgumentNamespace.getitem [(pyStr "a", 1)] (pyStr "missing") = none ∧
     ArgumentNamespace.getattr [(pyStr "a", 1)] (pyStr "missing") = none ∧
     ArgumentNamespace.get [(pyStr "a", 1)] (pyStr "missing") 7 = 7) ∧
    ArgumentNamespace.get [(pyStr "a", 1)] (pyStr "a") 7 = 1 :=
  ⟨(c5_missing_key_access [(pyStr "a", 1)] (pyStr "missing") 7).1 (by decide),
   (c5_missing_key_access [(pyStr "a", 1)] (pyStr "a") 7).2 1 rfl⟩

/-- C6: `update` with a plain dict or with another namespace merges
every entry into the storage — after the merge a key looks up to the
other mapping's value when present there and to its previous value
otherwise — while `update` with an argument of any other type raises
`TypeError` naming the offending type and produces no new storage. -/
theorem c6_update_merge {V : Type} (ns other : Storage V) (t : PyStr) (k : PyStr) :
    ((other.map Prod.fst).Nodup →
      ∃ merged,
        ArgumentNamespace.update ns (ArgumentNamespace.UpdateArg.dict other)
          = Except.ok merged ∧
        ArgumentNamespace.update ns (ArgumentNamespace.UpdateArg.namespaceArg other)
          = Except.ok merged ∧
        ArgumentNamespace.getattr merged k =
          (match ArgumentNamespace.getattr other k with
           | some v => some v
           | none => ArgumentNamespace.getattr ns k)) ∧
    ArgumentNamespace.update ns (ArgumentNamespace.UpdateArg.other t)
      = Except.error (ArgumentNamespace.typeErrorMsg t) := by
  constructor
  · intro hnodup
    exact ⟨_, rfl, rfl, ArgumentNamespace.getattr_foldl_setattr other ns k hnodup⟩
  · rfl

/-- C6 (witness): merging `{"a": 9}` into `{"a": 1, "b": 2}` by dict
and by namespace gives the same storage, which overwrites `"a"`. -/
theorem c6_witness :
    ∃ merged,
      ArgumentNamespace.update [(pyStr "a", 1), (pyStr "b", 2)]
          (ArgumentNamespace.UpdateArg.dict [(pyStr "a", 9)]) = Except.ok merged ∧
      ArgumentNamespace.update [(pyStr "a", 1), (pyStr "b", 2)]
          (ArgumentNamespace.UpdateArg.namespaceArg [(pyStr "a", 9)]) = Except.ok merged ∧
      ArgumentNamespace.getattr merged (pyStr "a") = some 9 := by
  obtain ⟨m, h1, h2, h3⟩ :=
    (c6_update_merge [(pyStr "a", 1), (pyStr "b", 2)] [(pyStr "a", 9)]
      (pyStr "int") (pyStr "a")).1 (by decide)
  exact ⟨m, h1, h2, h3.trans (by rfl)⟩

/-- C7: attribute-style and dictionary-style access are views of the
one `__dict__`: a value set through `__setitem__` is read back by
`getattr` and a value set through `setattr` is read back by
`__getitem__`; containment after an insertion holds for exactly the
inserted key and the previously stored keys, and containment in general
holds exactly when lookup succeeds. -/
theorem c7_dual_access {V : Type} (ns : Storage V) (k k2 : PyStr) (v : V) :
    ArgumentNamespace.getattr (ArgumentNamespace.setitem ns k v) k = some v ∧
    ArgumentNamespace.getitem (ArgumentNamespace.setattr ns k v) k = some v ∧
    (ArgumentNamespace.hasKey (ArgumentNamespace.setitem ns k v) k2 = true ↔
      k2 = k ∨ ArgumentNamespace.hasKey ns k2 = true) ∧
    (ArgumentNamespace.hasKey ns k2 = true ↔
      ∃ w, ArgumentNamespace.getattr ns k2 = some w) := by
  refine ⟨?_, ?_, ?_, ArgumentNamespace.hasKey_iff_getattr ns k2⟩
  · rw [ArgumentNamespace.setitem, ArgumentNamespace.getattr_setattr]
    simp
  · rw [ArgumentNamespace.getitem, ArgumentNamespace.getattr_setattr]
    simp
  · rw [ArgumentNamespace.setitem, ArgumentNamespace.hasKey_setattr]
    simp

/-- C7 (witness): setting `"a" := 1` on the empty storage makes it
readable by attribute access and contained. -/
theorem c7_witness :
    ArgumentNamespace.getattr
        (ArgumentNamespace.setitem ([] : Storage Nat) (pyStr "a") 1) (pyStr "a")
      = some 1 ∧
    (ArgumentNamespace.hasKey
        (ArgumentNamespace.setitem ([] : Storage Nat) (pyStr "a") 1) (pyStr "a") = true ↔
      pyStr "a" = pyStr "a" ∨ ArgumentNamespace.hasKey ([] : Storage Nat) (pyStr "a") = true) :=
  ⟨(c7_dual_access ([] : Storage Nat) (pyStr "a") (pyStr "a") 1).1,
   (c7_dual_access ([] : Storage Nat) (pyStr "a") (pyStr "a") 1).2.2.1⟩

/-- C8: `byte_formatter` maps 0 to `(0, "B")`, is symmetric under
negation, and maps `1000 ^ k` to `(1.0, dim[k])` for `k = 0..4` with
the fallback unit `"PB"` at `k = 5`. -/
theorem c8_scale_magnitude_table :
    byte_formatter 0 = (0, "B") ∧
    (∀ v : Int, byte_formatter (-v) = byte_formatter v) ∧
    byte_formatter 1 = (1, "B") ∧
    byte_formatter 1000 = (1, "KB") ∧
    byte_formatter (1000 ^ 2) = (1, "MB") ∧
    byte_formatter (1000 ^ 3) = (1, "GB") ∧
    byte_formatter (1000 ^ 4) = (1, "TB") ∧
    byte_formatter (1000 ^ 5) = (1, "PB") := by
  refine ⟨?_, ?_, ?_, byte_formatter_1000, ?_, ?_, ?_, ?_⟩
  · simp [byte_formatter, dimLookup, dim]
  · intro v
    simp [byte_formatter, Int.natAbs_neg]
  · have h : log10floor 1 = 0 := by decide
    norm_num [byte_formatter, h, dimLookup, dim]
  · have h : log10floor 1000000 = 6 := by decide
    norm_num [byte_formatter, h, dimLookup, dim]
  · have h : log10floor 1000000000 = 9 := by decide
    norm_num [byte_formatter, h, dimLookup, dim]
  · have h : log10floor 1000000000000 = 12 := by decide
    norm_num [byte_formatter, h, dimLookup, dim]
  · have h : log10floor 1000000000000000 = 15 := by decide
    norm_num [byte_formatter, h, dimLookup, dim]

/-- C8 (witness): the negation-symmetry conjunct at `v = 5`. -/
theorem c8_witness : byte_formatter (-5) = byte_formatter 5 :=
  c8_scale_magnitude_table.2.1 5

set_option maxRecDepth 40000 in
/-- Helper for the C9 counterexample: an input whose magnitude reaches
`1000 ^ 5 * overflowBound` drives the clamped exponent to 5 and makes
the float division `value / 1000 ** log` raise `OverflowError`. -/
theorem byte_formatterE_overflow (v : Int)
    (h : 1000 ^ 5 * overflowBound ≤ v.natAbs) :
    byte_formatterE v = Except.error "OverflowError" := by
  have h15 : (10 : Nat) ^ 15 ≤ v.natAbs := by
    have hx : (10 : Nat) ^ 15 ≤ 1000 ^ 5 * overflowBound := by decide
    omega
  have hpos : (0 : Nat) < 10 ^ 15 := by positivity
  have h0 : v.natAbs ≠ 0 := by omega
  have hv1 : ¬ v.natAbs < 1 := by omega
  have hlog : 15 ≤ Nat.log 10 v.natAbs := by
    have hm := Nat.log_mono_right (b := 10) h15
    rwa [Nat.log_pow (by norm_num)] at hm
  have hfloor : 15 ≤ log10floor v.natAbs := by rw [log10floor_eq]; exact hlog
  have hmin : min (log10floor v.natAbs / 3) dim.length = 5 := by
    have h5 : 5 ≤ log10floor v.natAbs / 3 := by omega
    have hd : dim.length = 5 := rfl
    rw [hd]
    exact min_eq_right h5
  have hstep : byte_formatterE v =
      (match truedivE v.natAbs (1000 ^ (min (log10floor v.natAbs / 3) dim.length)) with
       | Except.error e => Except.error e
       | Except.ok num =>
         Except.ok (num, dimLookup (min (log10floor v.natAbs / 3) dim.length))) := by
    simp [byte_formatterE, hv1, log10E, h0]
  rw [hstep, hmin]
  have htd : truedivE v.natAbs (1000 ^ 5) = Except.error "OverflowError" := by
    unfold truedivE
    rw [if_pos h]
  rw [htd]

set_option maxRecDepth 40000 in
/-- C9 (counterexample): the formatters are not total over all
integers: at `10 ^ 324` the float division `value / 1000 ** log` (with
`log` clamped to 5) has the exact quotient `10 ^ 309`, far beyond the
largest finite double, so CPython raises `OverflowError`, which
propagates through `format_num` and `format_rate`. -/
theorem c9_counterexample :
    byte_formatterE (10 ^ 324) = Except.error "OverflowError" ∧
    format_numE (10 ^ 324) "bytes" = Except.error "OverflowError" ∧
    format_rateE (10 ^ 324) "bytes" = Except.error "OverflowError" := by
  have hge : (1000 : Nat) ^ 5 * overflowBound ≤ ((10 : Int) ^ 324).natAbs := by
    rw [Int.natAbs_pow]
    decide
  have hb := byte_formatterE_overflow (10 ^ 324) hge
  exact ⟨hb, by simp [format_numE, hb], by simp [format_rateE, format_numE, hb]⟩

/-- C9 (amended): `byte_formatter`, `format_num` and `format_rate`
never raise on any integer — zero and negatives included, the sign
being discarded, and with the dimension falling back to the fixed
label `"PB"` once the exponent would index past `"TB"` — provided the
input's magnitude stays below the float-overflow threshold
`2 ^ 1024 - 2 ^ 970` of CPython's int/int division; the instrumented
embeddings then return exactly the pure values. -/
theorem c9_formatters_total_below_bound :
    (∀ v : Int, v.natAbs < overflowBound →
      byte_formatterE v = Except.ok (byte_formatter v)) ∧
    (∀ (v : Int) (u : String), v.natAbs < overflowBound →
      format_numE v u = Except.ok (format_num v u)) ∧
    (∀ (v : Int) (u : String), v.natAbs < overflowBound →
      format_rateE v u = Except.ok (format_rate v u)) ∧
    (∀ v : Int, 1000 ^ 5 ≤ v.natAbs → (byte_formatter v).2 = "PB") :=
  ⟨byte_formatterE_agrees, format_numE_agrees, format_rateE_agrees, byte_formatter_PB⟩

/-- C9 (witness): totality at 0, a negative input and a large input,
and the `"PB"` fallback at `10 ^ 20`. -/
theorem c9_witness :
    byte_formatterE 0 = Except.ok (byte_formatter 0) ∧
    format_numE (-7) "bits" = Except.ok (format_num (-7) "bits") ∧
    format_rateE 123456789 "bytes" = Except.ok (format_rate 123456789 "bytes") ∧
    (byte_formatter (10 ^ 20)).2 = "PB" :=
  ⟨c9_formatters_total_below_bound.1 0 (by norm_num [overflowBound]),
   c9_formatters_total_below_bound.2.1 (-7) "bits" (by norm_num [overflowBound]),
   c9_formatters_total_below_bound.2.2.1 123456789 "bytes" (by norm_num [overflowBound]),
   c9_formatters_total_below_bound.2.2.2 (10 ^ 20) (by norm_num)⟩

/-- C10: `format_num` appends `"it"` to the unit label for every unit
argument different from the exact string `"bytes"`, so any such unit
behaves exactly like `"bits"`: `format_num(1000, u) = "1.0 KBit"`. -/
theorem c10_unit_suffix (u : String) (h : u ≠ "bytes") :
    format_num 1000 u = "1.0 KBit" ∧
    format_num 1000 u = format_num 1000 "bits" := by
  constructor
  · simp [format_num, byte_formatter_1000, formatFloat1_one, h]
  · simp [format_num, byte_formatter_1000, formatFloat1_one, h]

/-- C10 (witness): the suffix behavior at the unit `"megabits"`,
agreeing with the `"bits"` result. -/
theorem c10_witness :
    format_num 1000 "megabits" = "1.0 KBit" ∧
    format_num 1000 "megabits" = format_num 1000 "bits" :=
  c10_unit_suffix "megabits" (by decide)

end Fritz
